import Mathlib

/-!
Verification development for the onefuzz CLI client (`src/cli/onefuzz/api.py`):
identifier resolution (`Endpoint._disambiguate`, `Endpoint._disambiguate_uuid`,
`is_uuid`), deterministic container naming (`Utils.namespaced_guid`,
`Utils.build_container_name`) and cleanup reconciliation
(`JobContainers.delete`).

Machine arithmetic is modelled with `Nat` and explicit reduction modulo
`2 ^ 32`; bytes are `Nat` values below 256.
-/

set_option maxRecDepth 4000000

namespace OnefuzzApi

/-! ### SHA-1 and UUID version 5

`uuid.uuid5` computes SHA-1 over the namespace bytes followed by the UTF-8
encoded name, truncates to 16 bytes and fixes the version/variant bits.
The implementation below follows FIPS 180 and RFC 4122 and is validated
against the stdlib on concrete vectors. -/

/-- Reduce modulo `2 ^ 32` (32-bit machine word). -/
def w32 (n : Nat) : Nat := n % 4294967296

/-- Rotate a 32-bit word left by `b` bits. -/
def rotl (b n : Nat) : Nat := w32 ((n <<< b) ||| (n >>> (32 - b)))

/-- Big-endian byte list of length `k` for `n`. -/
def toBytesBE : Nat → Nat → List Nat
  | 0, _ => []
  | k + 1, n => toBytesBE k (n / 256) ++ [n % 256]

/-- Pack bytes into big-endian 32-bit words, four at a time. -/
def bytesToWords : List Nat → List Nat
  | a :: b :: c :: d :: rest =>
      ((a <<< 24) ||| (b <<< 16) ||| (c <<< 8) ||| d) :: bytesToWords rest
  | _ => []

/-- Split a word list into chunks of sixteen, with explicit fuel so the
definition is structurally recursive and kernel-reducible. -/
def chunk16Aux : Nat → List Nat → List (List Nat)
  | 0, _ => []
  | _, [] => []
  | fuel + 1, ws => ws.take 16 :: chunk16Aux fuel (ws.drop 16)

/-- Split a word list into chunks of sixteen words. -/
def chunk16 (ws : List Nat) : List (List Nat) := chunk16Aux ws.length ws

/-- SHA-1 message padding: a `0x80` byte, zero bytes up to 56 mod 64, then
the 64-bit big-endian bit length. -/
def sha1Pad (msg : List Nat) : List Nat :=
  let padZeros := (119 - msg.length % 64) % 64
  msg ++ [128] ++ List.replicate padZeros 0 ++ toBytesBE 8 (msg.length * 8)

/-- SHA-1 round function, by round group. -/
def sha1F (t b c d : Nat) : Nat :=
  if t < 20 then (b &&& c) ||| ((4294967295 ^^^ b) &&& d)
  else if t < 40 then b ^^^ c ^^^ d
  else if t < 60 then (b &&& c) ||| (b &&& d) ||| (c &&& d)
  else b ^^^ c ^^^ d

/-- SHA-1 round constants, by round group. -/
def sha1K (t : Nat) : Nat :=
  if t < 20 then 0x5A827999
  else if t < 40 then 0x6ED9EBA1
  else if t < 60 then 0x8F1BBCDC
  else 0xCA62C1D6

/-- Extend the message schedule by the given number of words. -/
def sha1Extend (w : List Nat) : Nat → List Nat
  | 0 => w
  | k + 1 =>
      let i := w.length
      let x := rotl 1 ((w.getD (i - 3) 0) ^^^ (w.getD (i - 8) 0) ^^^
        (w.getD (i - 14) 0) ^^^ (w.getD (i - 16) 0))
      sha1Extend (w ++ [x]) k

/-- One SHA-1 round on the five-word state. -/
def sha1Round (w : List Nat) (st : Nat × Nat × Nat × Nat × Nat) (t : Nat) :
    Nat × Nat × Nat × Nat × Nat :=
  let (a, b, c, d, e) := st
  (w32 (rotl 5 a + sha1F t b c d + e + sha1K t + w.getD t 0), a, rotl 30 b, c, d)

/-- SHA-1 compression of one sixteen-word block. -/
def sha1Compress (h : Nat × Nat × Nat × Nat × Nat) (block : List Nat) :
    Nat × Nat × Nat × Nat × Nat :=
  let w := sha1Extend block 64
  let (a, b, c, d, e) := (List.range 80).foldl (sha1Round w) h
  let (h0, h1, h2, h3, h4) := h
  (w32 (h0 + a), w32 (h1 + b), w32 (h2 + c), w32 (h3 + d), w32 (h4 + e))

/-- SHA-1 digest (20 bytes) of a byte list. -/
def sha1 (msg : List Nat) : List Nat :=
  let blocks := chunk16 (bytesToWords (sha1Pad msg))
  let (h0, h1, h2, h3, h4) :=
    blocks.foldl sha1Compress (0x67452301, 0xEFCDAB89, 0x98BADCFE, 0x10325476, 0xC3D2E1F0)
  toBytesBE 4 h0 ++ toBytesBE 4 h1 ++ toBytesBE 4 h2 ++ toBytesBE 4 h3 ++ toBytesBE 4 h4

/-- Lowercase hexadecimal digit for a value below 16. -/
def hexDigit (n : Nat) : Char := if n < 10 then Char.ofNat (48 + n) else Char.ofNat (87 + n)

/-- Two lowercase hex characters for one byte. -/
def byteHex (b : Nat) : List Char := [hexDigit (b / 16), hexDigit (b % 16)]

/-- Lowercase hex string of a byte list; on a UUID this is Python's
`UUID.hex` (32 characters, no separators). -/
def bytesHex (bs : List Nat) : String := String.mk ((bs.map byteHex).flatten)

/-- UTF-8 encoding of one code point. -/
def utf8EncodeChar (c : Char) : List Nat :=
  let n := c.toNat
  if n < 0x80 then [n]
  else if n < 0x800 then [0xC0 ||| (n >>> 6), 0x80 ||| (n &&& 0x3F)]
  else if n < 0x10000 then
    [0xE0 ||| (n >>> 12), 0x80 ||| ((n >>> 6) &&& 0x3F), 0x80 ||| (n &&& 0x3F)]
  else
    [0xF0 ||| (n >>> 18), 0x80 ||| ((n >>> 12) &&& 0x3F),
     0x80 ||| ((n >>> 6) &&& 0x3F), 0x80 ||| (n &&& 0x3F)]

/-- UTF-8 encoding of a string. -/
def utf8Encode (s : String) : List Nat := (s.data.map utf8EncodeChar).flatten

/-- The frozen namespace constant `ONEFUZZ_GUID_NAMESPACE =
UUID("27f25e3f-6544-4b69-b309-9b096c5a9cbc")`, as its sixteen bytes. -/
def ONEFUZZ_GUID_NAMESPACE : List Nat :=
  [39, 242, 94, 63, 101, 68, 75, 105, 179, 9, 155, 9, 108, 90, 156, 188]

/-- RFC 4122 name-based UUID, version 5: SHA-1 of namespace bytes followed
by the UTF-8 name, truncated to 16 bytes, with version and variant bits
fixed. Result is the list of 16 bytes, big-endian as in `UUID.bytes`. -/
def uuid5 (ns : List Nat) (name : String) : List Nat :=
  let d := (sha1 (ns ++ utf8Encode name)).take 16
  let d := d.set 6 (((d.getD 6 0) &&& 0x0F) ||| 0x50)
  d.set 8 (((d.getD 8 0) &&& 0x3F) ||| 0x80)

/-! ### Domain enumerations

The role and platform enumerations live in the `onefuzztypes` package,
outside the sources at hand; only their member names are used here. -/

/-- Modelled from the spec: the container-role enumeration
(`onefuzztypes.enums.ContainerType`) is not among the sources; it contains
the twelve deletion-eligible roles listed in the cleanup allowlist plus
shared-infrastructure roles such as the persistent tooling container. -/
inductive ContainerType where
  | analysis
  | coverage
  | crashes
  | crashdumps
  | inputs
  | no_repro
  | readonly_inputs
  | reports
  | setup
  | tools
  | unique_inputs
  | unique_reports
  | regression_reports
deriving DecidableEq, Repr

/-- Python enum `.name` of a container role. -/
def ContainerType.name : ContainerType → String
  | .analysis => "analysis"
  | .coverage => "coverage"
  | .crashes => "crashes"
  | .crashdumps => "crashdumps"
  | .inputs => "inputs"
  | .no_repro => "no_repro"
  | .readonly_inputs => "readonly_inputs"
  | .reports => "reports"
  | .setup => "setup"
  | .tools => "tools"
  | .unique_inputs => "unique_inputs"
  | .unique_reports => "unique_reports"
  | .regression_reports => "regression_reports"

/-- Modelled from the spec: the platform enumeration
(`onefuzztypes.enums.OS`) is not among the sources; tasks run on Linux or
Windows. -/
inductive OS where
  | linux
  | windows
deriving DecidableEq, Repr

/-- Python enum `.name` of a platform. -/
def OS.name : OS → String
  | .linux => "linux"
  | .windows => "windows"

/-- Python `str.replace("_", "-")`: every underscore becomes a hyphen
(single-character pattern, so a character map). -/
def underscoreToHyphen (s : String) : String :=
  String.mk (s.data.map (fun c => if c = '_' then '-' else c))

/-! ### Resource namer (`Utils`) -/

/-- `Utils.namespaced_guid`: append the optional `name`, `build` and
`platform` fields to `[project]` in order, skipping `None`s, join with
`":"` and take the namespaced UUID v5 under the frozen namespace. -/
def namespaced_guid (project : String) (name build platform : Option String) : List Nat :=
  let identifiers := [project] ++ name.toList ++ build.toList ++ platform.toList
  uuid5 ONEFUZZ_GUID_NAMESPACE (String.intercalate ":" identifiers)

/-- `Utils.build_container_name`: select the digest fields by role and
render `"oft-<role slug>-<hex digest>"`. -/
def build_container_name (container_type : ContainerType) (project name build : String)
    (platform : OS) : String :=
  let guid :=
    if container_type = ContainerType.setup ∨ container_type = ContainerType.coverage then
      namespaced_guid project (some name) (some build) (some platform.name)
    else if container_type = ContainerType.regression_reports then
      namespaced_guid project (some name) (some build) none
    else
      namespaced_guid project (some name) none none
  "oft-" ++ underscoreToHyphen container_type.name ++ "-" ++ bytesHex guid

/-! ### Identifier resolver (`Endpoint`) -/

/-- Python `x.startswith(value)`: `value` is a character-for-character
initial segment of `x` (case-sensitive, exact). -/
def startswith (x value : String) : Bool := value.data.isPrefixOf x.data

/-- The two exceptions `_disambiguate` can raise, with the data
interpolated into their messages: `"Unable to find %s based on prefix:
%s" % (name, value)` and `"%s expands to multiple values - %s: %s" %
(name, value, ",".join(values))`. -/
inductive DisambiguateError where
  | notFound (name value : String)
  | ambiguous (name value : String) (values : List String)
deriving DecidableEq, Repr

/-- `Endpoint._disambiguate`. The enumerator `func` is called at most
once; the second component records how many times it was invoked, making
the short-circuit observable. -/
def _disambiguate (name value : String) (check : String → Bool)
    (func : Unit → List String) : Except DisambiguateError String × Nat :=
  if check value then (Except.ok value, 0)
  else
    let values := (func ()).filter (fun x => startswith x value)
    if values.length = 1 then (Except.ok (values.getD 0 ""), 1)
    else if values.length > 1 then
      if value ∈ values then (Except.ok value, 1)
      else (Except.error (DisambiguateError.ambiguous name value values), 1)
    else (Except.error (DisambiguateError.notFound name value), 1)

/-- Lowercase hex character class `[a-f0-9]` of the `UUID_RE` pattern. -/
def isHexChar (c : Char) : Bool := ('a' ≤ c && c ≤ 'f') || ('0' ≤ c && c ≤ '9')

/-- Consume exactly `n` hex characters, returning the rest. -/
def consumeHex : Nat → List Char → Option (List Char)
  | 0, cs => some cs
  | _ + 1, [] => none
  | n + 1, c :: cs => if isHexChar c then consumeHex n cs else none

/-- Consume one optional hyphen (`-?`). Because a hex group can never
start with a hyphen, greedy matching of `-?` is deterministic and this
equals the regex backtracking semantics. -/
def consumeOptDash (cs : List Char) : List Char :=
  match cs with
  | c :: rest => if c = '-' then rest else cs
  | [] => cs

/-- `is_uuid`: full-string match of `UUID_RE =
"^[a-f0-9]{8}-?[a-f0-9]{4}-?[a-f0-9]{4}-?[a-f0-9]{4}-?[a-f0-9]{12}\\Z"`,
as a deterministic matcher (each quantifier here is exact-length, and
`-?` is decided by the next character, so no backtracking arises). -/
def is_uuid (value : String) : Bool :=
  (((((((((consumeHex 8 value.data).map consumeOptDash).bind
    (consumeHex 4)).map consumeOptDash).bind
    (consumeHex 4)).map consumeOptDash).bind
    (consumeHex 4)).map consumeOptDash).bind
    (consumeHex 12)).elim false List.isEmpty

/-- Hex character class including uppercase, as accepted by Python's
`int(s, 16)`. -/
def isHexDigitChar (c : Char) : Bool := isHexChar c || ('A' ≤ c && c ≤ 'F')

/-- Numeric value of a hex character. -/
def hexVal (c : Char) : Nat :=
  if c ≤ '9' then c.toNat - 48
  else if c ≤ 'F' then c.toNat - 55
  else c.toNat - 87

/-- Adjacent pairs of a character list. -/
def chunkPairs : List Char → List (Char × Char)
  | a :: b :: rest => (a, b) :: chunkPairs rest
  | _ => []

/-- Modelled from the spec: the stdlib constructor `uuid.UUID(hex)` is not
among the sources. For the plain hex forms reaching it here it removes
hyphens, requires exactly 32 hex digits and parses them big-endian into 16
bytes; anything else raises (`none`). (The constructor also strips braces
and URN markers, which no accepted token here contains.) -/
def pyUUID (s : String) : Option (List Nat) :=
  let ds := s.data.filter (fun c => !(c = '-'))
  if ds.length = 32 ∧ ds.all isHexDigitChar = true then
    some ((chunkPairs ds).map (fun p => hexVal p.1 * 16 + hexVal p.2))
  else none

/-- The union type `UUID_EXPANSION = Union[UUID, str]`. -/
inductive UUID_EXPANSION where
  | uuid (u : List Nat)
  | str (s : String)

/-- `Endpoint._disambiguate_uuid`: an already-parsed UUID is returned as
is (zero enumerator calls); otherwise the string is resolved with
`is_uuid` as the fast-path check and the result parsed by `UUID(...)`. -/
def _disambiguate_uuid (name : String) (value : UUID_EXPANSION)
    (func : Unit → List String) : Except DisambiguateError (Option (List Nat)) × Nat :=
  match value with
  | .uuid u => (Except.ok (some u), 0)
  | .str s =>
    match _disambiguate name s is_uuid func with
    | (Except.ok v, k) => (Except.ok (pyUUID v), k)
    | (Except.error e, k) => (Except.error e, k)

/-! ### Cleanup reconciler (`JobContainers.delete`) -/

/-- The fields of `job.config` read by cleanup. -/
structure JobConfig where
  project : String
  name : String
  build : String
deriving DecidableEq, Repr

/-- One entry of `task.config.containers`. -/
structure TaskContainer where
  name : String
  type : ContainerType
deriving DecidableEq, Repr

/-- The fields of a task read by cleanup: its platform and its optional
container reference list. -/
structure Task where
  os : OS
  containers : Option (List TaskContainer)
deriving DecidableEq, Repr

/-- The fixed `SAFE_TO_REMOVE` allowlist of roles eligible for deletion. -/
def SAFE_TO_REMOVE : List ContainerType :=
  [ContainerType.crashes, ContainerType.crashdumps, ContainerType.setup,
   ContainerType.inputs, ContainerType.reports, ContainerType.unique_inputs,
   ContainerType.unique_reports, ContainerType.no_repro, ContainerType.analysis,
   ContainerType.coverage, ContainerType.readonly_inputs,
   ContainerType.regression_reports]

/-- Body of the inner loop of `JobContainers.delete`: record the name in
`containers`, then run the allowlist / flag / ownership chain to decide
membership in `to_delete`. The accumulator is `(containers, to_delete)`. -/
def stepContainer (job : JobConfig) (os : OS) (only_job_specific : Bool)
    (acc : Finset String × Finset String) (c : TaskContainer) :
    Finset String × Finset String :=
  let cset := insert c.name acc.1
  if c.type ∉ SAFE_TO_REMOVE then (cset, acc.2)
  else if only_job_specific = false then (cset, insert c.name acc.2)
  else if only_job_specific = true ∧
      build_container_name c.type job.project job.name job.build os = c.name then
    (cset, insert c.name acc.2)
  else (cset, acc.2)

/-- Body of the outer loop of `JobContainers.delete`: skip tasks whose
container list is `None`, otherwise fold over the references. -/
def stepTask (job : JobConfig) (only_job_specific : Bool)
    (acc : Finset String × Finset String) (task : Task) :
    Finset String × Finset String :=
  match task.containers with
  | none => acc
  | some cs => cs.foldl (stepContainer job task.os only_job_specific) acc

/-- The two sets built by `JobContainers.delete` before execution:
`(containers, to_delete)`. -/
def planDelete (job : JobConfig) (tasks : List Task) (only_job_specific : Bool) :
    Finset String × Finset String :=
  tasks.foldl (stepTask job only_job_specific) (∅, ∅)

/-- Outcome of one run of `JobContainers.delete`: the kept/deleted
partition of the referenced names, and the set of names for which a
remote container-delete call is issued during execution (exactly one call
per name). -/
structure CleanupResult where
  kept : Finset String
  deleted : Finset String
  remoteDeleteCalls : Finset String

/-- `JobContainers.delete`: compute the partition, then execute; with
`dryrun` no remote delete call is issued, otherwise one per name in
`to_delete`. -/
def jobContainersDelete (job : JobConfig) (tasks : List Task)
    (only_job_specific dryrun : Bool) : CleanupResult :=
  let p := planDelete job tasks only_job_specific
  { kept := p.1 \ p.2
    deleted := p.2
    remoteDeleteCalls := if dryrun then ∅ else p.2 }

/-- The container reference list of a task (`[]` when `None`). -/
def taskRefs (t : Task) : List TaskContainer := t.containers.getD []

/-- The condition under which the loop body of `JobContainers.delete`
adds a reference's name to `to_delete`. -/
def delCond (job : JobConfig) (os : OS) (only_job_specific : Bool) (c : TaskContainer) : Prop :=
  c.type ∈ SAFE_TO_REMOVE ∧
    (only_job_specific = false ∨
      build_container_name c.type job.project job.name job.build os = c.name)

instance (job : JobConfig) (os : OS) (ojs : Bool) (c : TaskContainer) :
    Decidable (delCond job os ojs c) := by
  unfold delCond; infer_instance

/-! ### Spec-side definitions (for refinement statements) -/

/-- Spec-side field selection for the digest, per role: `(project, name,
build, platform)` for `setup` and `coverage`, `(project, name, build)` for
`regression_reports`, `(project, name)` for every other role. -/
def claimSelectedFields (role : ContainerType) (project name build : String)
    (platform : OS) : List String :=
  if role = ContainerType.setup ∨ role = ContainerType.coverage then
    [project, name, build, platform.name]
  else if role = ContainerType.regression_reports then [project, name, build]
  else [project, name]

/-- An optional hyphen. -/
def dashIf (b : Bool) : List Char := if b then ['-'] else []

/-- Spec-side reading of the claimed fast-path acceptance: the canonical
32-hex-digit form, either fully hyphenated (8-4-4-4-12) or with no
hyphens at all. -/
def uuidSpecFormStrict (s : String) : Prop :=
  ∃ g1 g2 g3 g4 g5 : List Char,
    (s.data = g1 ++ ['-'] ++ g2 ++ ['-'] ++ g3 ++ ['-'] ++ g4 ++ ['-'] ++ g5 ∨
      s.data = g1 ++ g2 ++ g3 ++ g4 ++ g5) ∧
    g1.length = 8 ∧ g2.length = 4 ∧ g3.length = 4 ∧ g4.length = 4 ∧ g5.length = 12 ∧
    (∀ c ∈ g1 ++ g2 ++ g3 ++ g4 ++ g5, isHexChar c = true)

/-- Amended spec-side acceptance: 32 lowercase hex digits in groups
8-4-4-4-12, with each of the four separating hyphens independently
optional. -/
def uuidSpecForm (s : String) : Prop :=
  ∃ (g1 g2 g3 g4 g5 : List Char) (d1 d2 d3 d4 : Bool),
    s.data = g1 ++ dashIf d1 ++ g2 ++ dashIf d2 ++ g3 ++ dashIf d3 ++
      g4 ++ dashIf d4 ++ g5 ∧
    g1.length = 8 ∧ g2.length = 4 ∧ g3.length = 4 ∧ g4.length = 4 ∧ g5.length = 12 ∧
    (∀ c ∈ g1 ++ g2 ++ g3 ++ g4 ++ g5, isHexChar c = true)

/-! ### Shape of the digest -/

theorem toBytesBE_length (k n : Nat) : (toBytesBE k n).length = k := by
  induction k generalizing n with
  | zero => rfl
  | succ k ih => simp [toBytesBE, ih]

theorem toBytesBE_mem_lt (k n : Nat) : ∀ b ∈ toBytesBE k n, b < 256 := by
  induction k generalizing n with
  | zero => simp [toBytesBE]
  | succ k ih =>
    intro b hb
    simp only [toBytesBE, List.mem_append, List.mem_singleton] at hb
    rcases hb with hb | hb
    · exact ih _ b hb
    · omega

theorem sha1_length (msg : List Nat) : (sha1 msg).length = 20 := by
  unfold sha1
  rcases (chunk16 (bytesToWords (sha1Pad msg))).foldl sha1Compress
      (0x67452301, 0xEFCDAB89, 0x98BADCFE, 0x10325476, 0xC3D2E1F0) with
    ⟨h0, h1, h2, h3, h4⟩
  simp [toBytesBE_length]

theorem sha1_mem_lt (msg : List Nat) : ∀ b ∈ sha1 msg, b < 256 := by
  unfold sha1
  rcases (chunk16 (bytesToWords (sha1Pad msg))).foldl sha1Compress
      (0x67452301, 0xEFCDAB89, 0x98BADCFE, 0x10325476, 0xC3D2E1F0) with
    ⟨h0, h1, h2, h3, h4⟩
  intro b hb
  simp only [List.mem_append] at hb
  rcases hb with (((hb | hb) | hb) | hb) | hb <;> exact toBytesBE_mem_lt _ _ b hb

theorem uuid5_length (ns : List Nat) (name : String) : (uuid5 ns name).length = 16 := by
  unfold uuid5
  simp [List.length_take, sha1_length]

theorem uuid5_mem_lt (ns : List Nat) (name : String) : ∀ b ∈ uuid5 ns name, b < 256 := by
  unfold uuid5
  intro b hb
  have hband : ∀ x y m : Nat, y < 2 ^ 8 → m < 2 ^ 8 → (x &&& y) ||| m < 2 ^ 8 := by
    intro x y m hy hm
    exact Nat.or_lt_two_pow (lt_of_le_of_lt (Nat.and_le_right) hy) hm
  rcases List.mem_or_eq_of_mem_set hb with hb | hb
  · rcases List.mem_or_eq_of_mem_set hb with hb | hb
    · exact sha1_mem_lt _ b (List.mem_of_mem_take hb)
    · subst hb; exact hband _ _ _ (by norm_num) (by norm_num)
  · subst hb; exact hband _ _ _ (by norm_num) (by norm_num)

theorem hexDigit_mem (n : Nat) (h : n < 16) :
    hexDigit n ∈ "0123456789abcdef".data := by
  revert h
  have : ∀ m, m < 16 → hexDigit m ∈ "0123456789abcdef".data := by decide
  exact this n

theorem bytesHex_length (bs : List Nat) : (bytesHex bs).length = 2 * bs.length := by
  unfold bytesHex
  induction bs with
  | nil => rfl
  | cons b t ih =>
    simp only [List.map_cons, List.flatten_cons, byteHex] at *
    simp only [String.length, String.mk] at *
    simp [ih]
    omega

theorem bytesHex_mem (bs : List Nat) (hlt : ∀ b ∈ bs, b < 256) :
    ∀ c ∈ (bytesHex bs).data, c ∈ "0123456789abcdef".data := by
  intro c hc
  simp only [bytesHex, String.mk, List.mem_flatten, List.mem_map] at hc
  obtain ⟨l, ⟨b, hb, rfl⟩, hcl⟩ := hc
  have hb256 := hlt b hb
  simp only [byteHex, List.mem_cons, List.not_mem_nil, or_false] at hcl
  rcases hcl with rfl | rfl
  · exact hexDigit_mem _ (by omega)
  · exact hexDigit_mem _ (by omega)

/-! ### Claims -/

/-- C1: for every project, name, build and platform, `build_container_name`
returns `"oft-"` followed by the role name with each underscore replaced by
a hyphen, `"-"`, and the 32-character lowercase hex digest, where the
digest is the UUID v5 of the colon-joined selected fields under the fixed
namespace constant: fields `(project, name, build, platform)` for roles
`setup` and `coverage`, `(project, name, build)` for `regression_reports`,
and `(project, name)` for every other role. -/
theorem container_name_structure (role : ContainerType) (project name build : String)
    (platform : OS) :
    build_container_name role project name build platform =
      "oft-" ++ underscoreToHyphen role.name ++ "-" ++
        bytesHex (uuid5 ONEFUZZ_GUID_NAMESPACE
          (String.intercalate ":" (claimSelectedFields role project name build platform))) ∧
    (bytesHex (uuid5 ONEFUZZ_GUID_NAMESPACE
        (String.intercalate ":"
          (claimSelectedFields role project name build platform)))).length = 32 ∧
    ∀ c ∈ (bytesHex (uuid5 ONEFUZZ_GUID_NAMESPACE
        (String.intercalate ":"
          (claimSelectedFields role project name build platform)))).data,
      c ∈ "0123456789abcdef".data := by
  refine ⟨?_, ?_, ?_⟩
  · unfold build_container_name claimSelectedFields namespaced_guid
    split_ifs <;> rfl
  · rw [bytesHex_length, uuid5_length]
  · exact bytesHex_mem _ (uuid5_mem_lt _ _)

set_option maxRecDepth 1000000 in
/-- Witness for C1 at role `setup`, project `"p"`, name `"n"`, build `"b"`,
platform Linux, with the hex-alphabet conjunct applied to the first digest
character. -/
theorem container_name_structure_witness :
    build_container_name ContainerType.setup "p" "n" "b" OS.linux =
      "oft-" ++ underscoreToHyphen (ContainerType.name ContainerType.setup) ++ "-" ++
        bytesHex (uuid5 ONEFUZZ_GUID_NAMESPACE
          (String.intercalate ":"
            (claimSelectedFields ContainerType.setup "p" "n" "b" OS.linux))) ∧
    '0' ∈ "0123456789abcdef".data := by
  refine ⟨(container_name_structure ContainerType.setup "p" "n" "b" OS.linux).1, ?_⟩
  exact (container_name_structure ContainerType.setup "p" "n" "b" OS.linux).2.2 '0'
    (by decide)

/-- C4: for every field name, every input token rejected by the
caller-supplied fast-path check, and every candidate set in which exactly
one element starts with the token (case-sensitive exact prefix),
`_disambiguate` returns that unique element. -/
theorem disambiguate_unique_match (name value u : String) (check : String → Bool)
    (C : List String) (h1 : check value = false)
    (h2 : C.filter (fun x => startswith x value) = [u]) :
    (_disambiguate name value check (fun _ => C)).1 = Except.ok u := by
  simp [_disambiguate, h1, h2]

/-- Witness for C4: token `"ab"`, candidates `["abc", "xyz"]`, unique
match `"abc"`. -/
theorem disambiguate_unique_match_witness :
    (_disambiguate "task" "ab" (fun _ => false) (fun _ => ["abc", "xyz"])).1 =
      Except.ok "abc" :=
  disambiguate_unique_match "task" "ab" "abc" (fun _ => false) ["abc", "xyz"]
    rfl (by decide)

/-- C5: for every input token rejected by the fast-path check and every
candidate set in which more than one element starts with the token, if the
token is itself an element of the candidate set then `_disambiguate`
returns the token rather than raising the ambiguity error. -/
theorem disambiguate_exact_match_precedence (name value : String) (check : String → Bool)
    (C : List String) (h1 : check value = false)
    (h2 : 1 < (C.filter (fun x => startswith x value)).length) (h3 : value ∈ C) :
    (_disambiguate name value check (fun _ => C)).1 = Except.ok value := by
  have hself : startswith value value = true := by
    simp [startswith, List.isPrefixOf_iff_prefix]
  have hmem : value ∈ C.filter (fun x => startswith x value) :=
    List.mem_filter.mpr ⟨h3, hself⟩
  simp only [_disambiguate, h1, Bool.false_eq_true, if_false]
  rw [if_neg (by omega), if_pos (by omega), if_pos hmem]

/-- Witness for C5 at the spec's own example: candidates
`["abc1", "abc12", "abc123"]`, token `"abc12"`. -/
theorem disambiguate_exact_match_precedence_witness :
    (_disambiguate "task" "abc12" (fun _ => false)
      (fun _ => ["abc1", "abc12", "abc123"])).1 = Except.ok "abc12" :=
  disambiguate_exact_match_precedence "task" "abc12" (fun _ => false)
    ["abc1", "abc12", "abc123"] rfl (by decide) (by decide)

/-- C6: `_disambiguate` fails exactly when the fast-path check rejects the
token and either zero candidates start with it — raising the not-found
error carrying the field name and the original token — or more than one
candidate starts with it and the token is not itself among the matches —
raising the ambiguity error carrying every conflicting candidate; in all
other cases it returns a value. -/
theorem disambiguate_error_characterization (name value : String) (check : String → Bool)
    (C : List String) :
    ((∃ e, (_disambiguate name value check (fun _ => C)).1 = Except.error e) ↔
      check value = false ∧
        (C.filter (fun x => startswith x value) = [] ∨
          (1 < (C.filter (fun x => startswith x value)).length ∧
            value ∉ C.filter (fun x => startswith x value)))) ∧
    (check value = false → C.filter (fun x => startswith x value) = [] →
      (_disambiguate name value check (fun _ => C)).1 =
        Except.error (DisambiguateError.notFound name value)) ∧
    (check value = false → 1 < (C.filter (fun x => startswith x value)).length →
      value ∉ C.filter (fun x => startswith x value) →
      (_disambiguate name value check (fun _ => C)).1 =
        Except.error (DisambiguateError.ambiguous name value
          (C.filter (fun x => startswith x value)))) := by
  have key : ∀ hnil : C.filter (fun x => startswith x value) = [],
      check value = false →
      (_disambiguate name value check (fun _ => C)).1 =
        Except.error (DisambiguateError.notFound name value) := by
    intro hnil hchk
    simp [_disambiguate, hchk, hnil]
  have key2 : check value = false →
      1 < (C.filter (fun x => startswith x value)).length →
      value ∉ C.filter (fun x => startswith x value) →
      (_disambiguate name value check (fun _ => C)).1 =
        Except.error (DisambiguateError.ambiguous name value
          (C.filter (fun x => startswith x value))) := by
    intro hchk hgt hnv
    simp only [_disambiguate, hchk, Bool.false_eq_true, if_false]
    rw [if_neg (by omega), if_pos (by omega), if_neg hnv]
  refine ⟨?_, fun hchk hnil => key hnil hchk, key2⟩
  constructor
  · intro ⟨e, he⟩
    rcases hchk : check value with _ | _
    · refine ⟨rfl, ?_⟩
      rcases hlen : (C.filter (fun x => startswith x value)).length with _ | _ | n
      · exact Or.inl (List.length_eq_zero.mp hlen)
      · obtain ⟨u, hu⟩ := List.length_eq_one.mp hlen
        rw [show (_disambiguate name value check (fun _ => C)).1 = Except.ok u by
          simp [_disambiguate, hchk, hu]] at he
        cases he
      · refine Or.inr ⟨by omega, fun hv => ?_⟩
        rw [show (_disambiguate name value check (fun _ => C)).1 = Except.ok value by
          simp only [_disambiguate, hchk, Bool.false_eq_true, if_false]
          rw [if_neg (by omega), if_pos (by omega), if_pos hv]] at he
        cases he
    · rw [show (_disambiguate name value check (fun _ => C)).1 = Except.ok value by
        simp [_disambiguate, hchk]] at he
      cases he
  · rintro ⟨hchk, hnil | ⟨hgt, hnv⟩⟩
    · exact ⟨DisambiguateError.notFound name value, key hnil hchk⟩
    · exact ⟨DisambiguateError.ambiguous name value
        (C.filter (fun x => startswith x value)), key2 hchk hgt hnv⟩

/-- Witness for C6: the not-found case for token `"zz"` against
`["abc"]`, the ambiguity case for token `"ab"` against `["abc", "abd"]`,
and the success case for an accepted token. -/
theorem disambiguate_error_characterization_witness :
    (_disambiguate "task" "zz" (fun _ => false) (fun _ => ["abc"])).1 =
      Except.error (DisambiguateError.notFound "task" "zz") ∧
    (_disambiguate "task" "ab" (fun _ => false) (fun _ => ["abc", "abd"])).1 =
      Except.error (DisambiguateError.ambiguous "task" "ab" ["abc", "abd"]) ∧
    ¬ ∃ e, (_disambiguate "task" "ab" (fun _ => true) (fun _ => [])).1 =
      Except.error e := by
  refine ⟨?_, ?_, ?_⟩
  · exact (disambiguate_error_characterization "task" "zz" (fun _ => false)
      ["abc"]).2.1 rfl (by decide)
  · have h := (disambiguate_error_characterization "task" "ab" (fun _ => false)
      ["abc", "abd"]).2.2 rfl (by decide) (by decide)
    rw [h]
    rfl
  · intro he
    have h := (disambiguate_error_characterization "task" "ab" (fun _ => true)
      []).1.mp he
    simp at h

/-- C7: for every input token accepted by the fast-path check,
`_disambiguate` returns the token unchanged and invokes the enumerator
zero times; and for a UUID-typed field given an already-parsed UUID,
`_disambiguate_uuid` returns it with zero enumerator invocations. -/
theorem disambiguate_fast_path_no_enumeration (name value : String)
    (check : String → Bool) (func : Unit → List String) (h : check value = true) :
    _disambiguate name value check func = (Except.ok value, 0) ∧
    ∀ u : List Nat,
      _disambiguate_uuid name (UUID_EXPANSION.uuid u) func = (Except.ok (some u), 0) := by
  exact ⟨by simp [_disambiguate, h], fun u => rfl⟩

/-- Witness for C7: a check accepting the token `"full"`, and the parsed
UUID given as all-zero bytes. -/
theorem disambiguate_fast_path_no_enumeration_witness :
    _disambiguate "task" "full" (fun v => v = "full") (fun _ => ["fullest"]) =
      (Except.ok "full", 0) ∧
    _disambiguate_uuid "task" (UUID_EXPANSION.uuid (List.replicate 16 0))
      (fun _ => ["fullest"]) = (Except.ok (some (List.replicate 16 0)), 0) := by
  have h := disambiguate_fast_path_no_enumeration "task" "full"
    (fun v => v = "full") (fun _ => ["fullest"]) (by decide)
  exact ⟨h.1, h.2 (List.replicate 16 0)⟩

/-! ### Membership characterization of the cleanup fold -/

theorem stepContainer_fst (job : JobConfig) (os : OS) (ojs : Bool)
    (acc : Finset String × Finset String) (c : TaskContainer) :
    (stepContainer job os ojs acc c).1 = insert c.name acc.1 := by
  unfold stepContainer
  split_ifs <;> rfl

theorem stepContainer_snd (job : JobConfig) (os : OS) (ojs : Bool)
    (acc : Finset String × Finset String) (c : TaskContainer) :
    (stepContainer job os ojs acc c).2 =
      if delCond job os ojs c then insert c.name acc.2 else acc.2 := by
  unfold stepContainer delCond
  rcases ojs with _ | _ <;> split_ifs <;> simp_all

theorem foldl_stepContainer_fst (job : JobConfig) (os : OS) (ojs : Bool)
    (cs : List TaskContainer) (acc : Finset String × Finset String) (x : String) :
    x ∈ (cs.foldl (stepContainer job os ojs) acc).1 ↔
      x ∈ acc.1 ∨ ∃ c ∈ cs, c.name = x := by
  induction cs generalizing acc with
  | nil => simp
  | cons c t ih =>
    rw [List.foldl_cons, ih]
    rw [stepContainer_fst]
    simp only [Finset.mem_insert, List.mem_cons]
    constructor
    · rintro ((rfl | h) | ⟨c', hc', rfl⟩)
      · exact Or.inr ⟨c, Or.inl rfl, rfl⟩
      · exact Or.inl h
      · exact Or.inr ⟨c', Or.inr hc', rfl⟩
    · rintro (h | ⟨c', (rfl | hc'), rfl⟩)
      · exact Or.inl (Or.inr h)
      · exact Or.inl (Or.inl rfl)
      · exact Or.inr ⟨c', hc', rfl⟩

theorem foldl_stepContainer_snd (job : JobConfig) (os : OS) (ojs : Bool)
    (cs : List TaskContainer) (acc : Finset String × Finset String) (x : String) :
    x ∈ (cs.foldl (stepContainer job os ojs) acc).2 ↔
      x ∈ acc.2 ∨ ∃ c ∈ cs, c.name = x ∧ delCond job os ojs c := by
  induction cs generalizing acc with
  | nil => simp
  | cons c t ih =>
    rw [List.foldl_cons, ih]
    have hfst : (stepContainer job os ojs acc c).2 =
        if delCond job os ojs c then insert c.name acc.2 else acc.2 :=
      stepContainer_snd job os ojs acc c
    by_cases hd : delCond job os ojs c
    · rw [hfst, if_pos hd]
      simp only [Finset.mem_insert, List.mem_cons]
      constructor
      · rintro ((rfl | h) | ⟨c', hc', rfl, hd'⟩)
        · exact Or.inr ⟨c, Or.inl rfl, rfl, hd⟩
        · exact Or.inl h
        · exact Or.inr ⟨c', Or.inr hc', rfl, hd'⟩
      · rintro (h | ⟨c', (rfl | hc'), rfl, hd'⟩)
        · exact Or.inl (Or.inr h)
        · exact Or.inl (Or.inl rfl)
        · exact Or.inr ⟨c', hc', rfl, hd'⟩
    · rw [hfst, if_neg hd]
      simp only [List.mem_cons]
      constructor
      · rintro (h | ⟨c', hc', rfl, hd'⟩)
        · exact Or.inl h
        · exact Or.inr ⟨c', Or.inr hc', rfl, hd'⟩
      · rintro (h | ⟨c', (rfl | hc'), rfl, hd'⟩)
        · exact Or.inl h
        · exact absurd hd' hd
        · exact Or.inr ⟨c', hc', rfl, hd'⟩

theorem stepTask_eq (job : JobConfig) (ojs : Bool)
    (acc : Finset String × Finset String) (t : Task) :
    stepTask job ojs acc t = (taskRefs t).foldl (stepContainer job t.os ojs) acc := by
  unfold stepTask taskRefs
  rcases t with ⟨os, _ | cs⟩ <;> rfl

theorem foldl_stepTask_snd (job : JobConfig) (ojs : Bool) (tasks : List Task)
    (acc : Finset String × Finset String) (x : String) :
    x ∈ (tasks.foldl (stepTask job ojs) acc).2 ↔
      x ∈ acc.2 ∨ ∃ t ∈ tasks, ∃ c ∈ taskRefs t, c.name = x ∧ delCond job t.os ojs c := by
  induction tasks generalizing acc with
  | nil => simp
  | cons t ts ih =>
    rw [List.foldl_cons, ih, stepTask_eq, foldl_stepContainer_snd]
    simp only [List.mem_cons]
    constructor
    · rintro ((h | hex) | ⟨t', ht', hex⟩)
      · exact Or.inl h
      · exact Or.inr ⟨t, Or.inl rfl, hex⟩
      · exact Or.inr ⟨t', Or.inr ht', hex⟩
    · rintro (h | ⟨t', (rfl | ht'), hex⟩)
      · exact Or.inl (Or.inl h)
      · exact Or.inl (Or.inr hex)
      · exact Or.inr ⟨t', ht', hex⟩

theorem foldl_stepTask_fst (job : JobConfig) (ojs : Bool) (tasks : List Task)
    (acc : Finset String × Finset String) (x : String) :
    x ∈ (tasks.foldl (stepTask job ojs) acc).1 ↔
      x ∈ acc.1 ∨ ∃ t ∈ tasks, ∃ c ∈ taskRefs t, c.name = x := by
  induction tasks generalizing acc with
  | nil => simp
  | cons t ts ih =>
    rw [List.foldl_cons, ih, stepTask_eq, foldl_stepContainer_fst]
    simp only [List.mem_cons]
    constructor
    · rintro ((h | ⟨c, hc, rfl⟩) | ⟨t', ht', hex⟩)
      · exact Or.inl h
      · exact Or.inr ⟨t, Or.inl rfl, c, hc, rfl⟩
      · exact Or.inr ⟨t', Or.inr ht', hex⟩
    · rintro (h | ⟨t', (rfl | ht'), hex⟩)
      · exact Or.inl (Or.inl h)
      · exact Or.inl (Or.inr hex)
      · exact Or.inr ⟨t', ht', hex⟩

/-- A name is in the `deleted` set exactly when some task holds an
allowlisted reference with that name that passes the flag / ownership
chain. -/
theorem mem_deleted_iff (job : JobConfig) (tasks : List Task) (ojs dr : Bool) (x : String) :
    x ∈ (jobContainersDelete job tasks ojs dr).deleted ↔
      ∃ t ∈ tasks, ∃ c ∈ taskRefs t, c.name = x ∧ delCond job t.os ojs c := by
  unfold jobContainersDelete planDelete
  rw [show (⟨(tasks.foldl (stepTask job ojs) (∅, ∅)).1 \
      (tasks.foldl (stepTask job ojs) (∅, ∅)).2,
      (tasks.foldl (stepTask job ojs) (∅, ∅)).2,
      if dr then ∅ else (tasks.foldl (stepTask job ojs) (∅, ∅)).2⟩ :
        CleanupResult).deleted = (tasks.foldl (stepTask job ojs) (∅, ∅)).2 from rfl]
  rw [foldl_stepTask_snd]
  simp

/-- C3: a container all of whose references carry a role outside the fixed
allowlist is never a deletion candidate: its name never appears in the
deleted set, regardless of `only_job_specific` and regardless of whether
the naming ownership test would match. -/
theorem cleanup_allowlist_protects (job : JobConfig) (tasks : List Task)
    (ojs dr : Bool) (x : String)
    (h : ∀ t ∈ tasks, ∀ c ∈ taskRefs t, c.name = x → c.type ∉ SAFE_TO_REMOVE) :
    x ∉ (jobContainersDelete job tasks ojs dr).deleted := by
  rw [mem_deleted_iff]
  rintro ⟨t, ht, c, hc, rfl, hdel, -⟩
  exact h t ht c hc rfl hdel

/-- Witness for C3 at the spec's example: the non-allowlisted container
`"oft-other-bbb"` (role `tools`) next to an allowlisted one. -/
theorem cleanup_allowlist_protects_witness :
    "oft-other-bbb" ∉ (jobContainersDelete ⟨"p", "n", "b"⟩
      [⟨OS.linux, some [⟨"oft-setup-aaa", ContainerType.setup⟩]⟩,
       ⟨OS.linux, some [⟨"oft-other-bbb", ContainerType.tools⟩]⟩] true false).deleted :=
  cleanup_allowlist_protects ⟨"p", "n", "b"⟩
    [⟨OS.linux, some [⟨"oft-setup-aaa", ContainerType.setup⟩]⟩,
     ⟨OS.linux, some [⟨"oft-other-bbb", ContainerType.tools⟩]⟩] true false
    "oft-other-bbb" (by decide)

/-- C9: for every job, task set, and setting of `only_job_specific`, a dry
run issues zero remote container-delete calls while computing the same
kept/deleted partition of the referenced container names as the non-dry
run (which issues exactly one delete call per deleted name). -/
theorem cleanup_dryrun_pure (job : JobConfig) (tasks : List Task) (ojs : Bool) :
    (jobContainersDelete job tasks ojs true).kept =
      (jobContainersDelete job tasks ojs false).kept ∧
    (jobContainersDelete job tasks ojs true).deleted =
      (jobContainersDelete job tasks ojs false).deleted ∧
    (jobContainersDelete job tasks ojs true).remoteDeleteCalls = ∅ ∧
    (jobContainersDelete job tasks ojs false).remoteDeleteCalls =
      (jobContainersDelete job tasks ojs false).deleted :=
  ⟨rfl, rfl, rfl, rfl⟩

/-- Mixed-platform counterexample data for C2: one job, the same
setup-container name referenced by a Linux task and by a Windows task. -/
def mixedOsName : String := build_container_name ContainerType.setup "p" "n" "b" OS.linux

/-- The job configuration of the C2 counterexample. -/
def mixedOsJob : JobConfig := ⟨"p", "n", "b"⟩

/-- The two tasks of the C2 counterexample. -/
def mixedOsTasks : List Task :=
  [⟨OS.linux, some [⟨mixedOsName, ContainerType.setup⟩]⟩,
   ⟨OS.windows, some [⟨mixedOsName, ContainerType.setup⟩]⟩]

/-- Counterexample to C2 as stated: deletion marking is not an `iff` per
(task, reference) pair. The Windows task's reference fails the ownership
recomputation (its platform yields a different digest), yet the name is in
the deleted set because the Linux task's reference passes it. -/
theorem cleanup_ownership_counterexample :
    ¬ (∀ (job : JobConfig) (tasks : List Task) (dr : Bool), ∀ t ∈ tasks,
        ∀ c ∈ taskRefs t, c.type ∈ SAFE_TO_REMOVE →
          (c.name ∈ (jobContainersDelete job tasks true dr).deleted ↔
            build_container_name c.type job.project job.name job.build t.os = c.name)) := by
  intro h
  have hmem : mixedOsName ∈
      (jobContainersDelete mixedOsJob mixedOsTasks true false).deleted := by
    rw [mem_deleted_iff]
    exact ⟨⟨OS.linux, some [⟨mixedOsName, ContainerType.setup⟩]⟩, by simp [mixedOsTasks],
      ⟨mixedOsName, ContainerType.setup⟩, by simp [taskRefs], rfl, by decide, Or.inr rfl⟩
  have h2 := (h mixedOsJob mixedOsTasks false
      ⟨OS.windows, some [⟨mixedOsName, ContainerType.setup⟩]⟩ (by simp [mixedOsTasks])
      ⟨mixedOsName, ContainerType.setup⟩ (by simp [taskRefs]) (by decide)).mp hmem
  exact absurd h2 (by decide)

/-- C2 amended: during job-specific cleanup, a reference whose recomputed
canonical name (from its role, the job's project, name and build, and its
task's OS) equals its recorded name is marked for deletion; and
conversely every name in the deleted set has at least one allowlisted
reference, on some task of the job, passing that ownership test. -/
theorem cleanup_ownership_amended (job : JobConfig) (tasks : List Task) (dr : Bool) :
    (∀ t ∈ tasks, ∀ c ∈ taskRefs t, c.type ∈ SAFE_TO_REMOVE →
      build_container_name c.type job.project job.name job.build t.os = c.name →
      c.name ∈ (jobContainersDelete job tasks true dr).deleted) ∧
    (∀ x ∈ (jobContainersDelete job tasks true dr).deleted,
      ∃ t ∈ tasks, ∃ c ∈ taskRefs t, c.name = x ∧ c.type ∈ SAFE_TO_REMOVE ∧
        build_container_name c.type job.project job.name job.build t.os = c.name) := by
  constructor
  · intro t ht c hc hsafe hown
    rw [mem_deleted_iff]
    exact ⟨t, ht, c, hc, rfl, hsafe, Or.inr hown⟩
  · intro x hx
    rw [mem_deleted_iff] at hx
    obtain ⟨t, ht, c, hc, rfl, hsafe, hcase⟩ := hx
    rcases hcase with hfalse | hown
    · exact Bool.noConfusion hfalse
    · exact ⟨t, ht, c, hc, rfl, hsafe, hown⟩

/-- Witness for the amended C2: the Linux reference of the mixed-platform
job passes the ownership test, so its name is deleted. -/
theorem cleanup_ownership_amended_witness :
    mixedOsName ∈ (jobContainersDelete mixedOsJob mixedOsTasks true false).deleted :=
  (cleanup_ownership_amended mixedOsJob mixedOsTasks false).1
    ⟨OS.linux, some [⟨mixedOsName, ContainerType.setup⟩]⟩ (by simp [mixedOsTasks])
    ⟨mixedOsName, ContainerType.setup⟩ (by simp [taskRefs]) (by decide) rfl

/-- C10: in `namespaced_guid`, omitted (`None`) middle fields are skipped
before colon-joining rather than encoded, so distinct naming keys collide:
`namespaced_guid(p, name=None, build=s)` equals
`namespaced_guid(p, name=s)`, and in general the digest depends only on
the ordered sequence of non-`None` field values, not on which named
positions they occupy. -/
theorem namespaced_guid_positional_collision :
    (∀ project s : String,
      namespaced_guid project none (some s) none =
        namespaced_guid project (some s) none none) ∧
    (∀ (p p' : String) (n b pl n' b' pl' : Option String),
      [p] ++ n.toList ++ b.toList ++ pl.toList =
        [p'] ++ n'.toList ++ b'.toList ++ pl'.toList →
      namespaced_guid p n b pl = namespaced_guid p' n' b' pl') := by
  constructor
  · intro project s
    rfl
  · intro p p' n b pl n' b' pl' h
    unfold namespaced_guid
    rw [h]

/-- Witness for C10: `(name="s")` and `(platform="s")` give the same
digest. -/
theorem namespaced_guid_positional_collision_witness :
    namespaced_guid "p" (some "s") none none = namespaced_guid "p" none none (some "s") :=
  namespaced_guid_positional_collision.2 "p" "p" (some "s") none none none none
    (some "s") rfl

/-! ### Structure of the UUID fast-path matcher -/

theorem isHexChar_ne_dash (c : Char) (h : isHexChar c = true) : ¬ c = '-' := by
  intro hc
  subst hc
  exact absurd h (by decide)

theorem consumeHex_append (n : Nat) (g rest : List Char) (hlen : g.length = n)
    (hhex : ∀ c ∈ g, isHexChar c = true) : consumeHex n (g ++ rest) = some rest := by
  induction g generalizing n with
  | nil =>
    subst hlen
    rfl
  | cons c t ih =>
    subst hlen
    have hc := hhex c (List.mem_cons_self c t)
    simp only [List.cons_append, List.length_cons, consumeHex, hc, if_true]
    exact ih t.length rfl (fun x hx => hhex x (List.mem_cons_of_mem c hx))

theorem consumeHex_exact (n : Nat) (g : List Char) (hlen : g.length = n)
    (hhex : ∀ c ∈ g, isHexChar c = true) : consumeHex n g = some [] := by
  have h := consumeHex_append n g [] hlen hhex
  simpa using h

theorem consumeHex_some (n : Nat) (cs rest : List Char) (h : consumeHex n cs = some rest) :
    ∃ g, cs = g ++ rest ∧ g.length = n ∧ ∀ c ∈ g, isHexChar c = true := by
  induction n generalizing cs with
  | zero =>
    obtain rfl : cs = rest := Option.some.inj h
    exact ⟨[], rfl, rfl, by simp⟩
  | succ n ih =>
    cases cs with
    | nil => cases h
    | cons c t =>
      by_cases hc : isHexChar c = true
      · rw [show consumeHex (n + 1) (c :: t) = consumeHex n t by
          simp [consumeHex, hc]] at h
        obtain ⟨g, rfl, hg, hhex⟩ := ih t h
        refine ⟨c :: g, rfl, by simp [hg], ?_⟩
        intro x hx
        rcases List.mem_cons.mp hx with rfl | hx
        · exact hc
        · exact hhex x hx
      · rw [show consumeHex (n + 1) (c :: t) = none by simp [consumeHex, hc]] at h
        cases h

theorem consumeOptDash_split (cs : List Char) :
    ∃ d, cs = dashIf d ++ consumeOptDash cs := by
  cases cs with
  | nil => exact ⟨false, rfl⟩
  | cons c t =>
    by_cases h : c = '-'
    · subst h
      exact ⟨true, by simp [consumeOptDash, dashIf]⟩
    · exact ⟨false, by simp [consumeOptDash, dashIf, h]⟩

theorem consumeOptDash_append (d : Bool) (cs : List Char)
    (h : ∀ c, cs.head? = some c → ¬ c = '-') :
    consumeOptDash (dashIf d ++ cs) = cs := by
  cases d with
  | true => simp [dashIf, consumeOptDash]
  | false =>
    show consumeOptDash ([] ++ cs) = cs
    rw [List.nil_append]
    cases cs with
    | nil => rfl
    | cons c t => simp [consumeOptDash, h c rfl]

theorem head_app_ne_dash (g rest : List Char) (hlen : 0 < g.length)
    (hhx : ∀ c ∈ g, isHexChar c = true) :
    ∀ c, (g ++ rest).head? = some c → ¬ c = '-' := by
  cases g with
  | nil => simp at hlen
  | cons a t =>
    intro c hc
    simp only [List.cons_append, List.head?_cons, Option.some.injEq] at hc
    subst hc
    exact isHexChar_ne_dash a (hhx a (List.mem_cons_self a t))

theorem is_uuid_sound (s : String) (h : is_uuid s = true) : uuidSpecForm s := by
  unfold is_uuid at h
  rcases h8 : consumeHex 8 s.data with _ | cs1
  · rw [h8] at h; simp at h
  rw [h8] at h
  simp only [Option.map_some', Option.some_bind] at h
  rcases h4a : consumeHex 4 (consumeOptDash cs1) with _ | cs2
  · rw [h4a] at h; simp at h
  rw [h4a] at h
  simp only [Option.map_some', Option.some_bind] at h
  rcases h4b : consumeHex 4 (consumeOptDash cs2) with _ | cs3
  · rw [h4b] at h; simp at h
  rw [h4b] at h
  simp only [Option.map_some', Option.some_bind] at h
  rcases h4c : consumeHex 4 (consumeOptDash cs3) with _ | cs4
  · rw [h4c] at h; simp at h
  rw [h4c] at h
  simp only [Option.map_some', Option.some_bind] at h
  rcases h12 : consumeHex 12 (consumeOptDash cs4) with _ | cs5
  · rw [h12] at h; simp at h
  rw [h12] at h
  simp only [Option.elim_some] at h
  have hnil : cs5 = [] := List.isEmpty_iff.mp h
  obtain ⟨g1, hg1eq, hg1len, hg1hex⟩ := consumeHex_some 8 s.data cs1 h8
  obtain ⟨d1, hd1⟩ := consumeOptDash_split cs1
  obtain ⟨g2, hg2eq, hg2len, hg2hex⟩ := consumeHex_some 4 _ cs2 h4a
  obtain ⟨d2, hd2⟩ := consumeOptDash_split cs2
  obtain ⟨g3, hg3eq, hg3len, hg3hex⟩ := consumeHex_some 4 _ cs3 h4b
  obtain ⟨d3, hd3⟩ := consumeOptDash_split cs3
  obtain ⟨g4, hg4eq, hg4len, hg4hex⟩ := consumeHex_some 4 _ cs4 h4c
  obtain ⟨d4, hd4⟩ := consumeOptDash_split cs4
  obtain ⟨g5, hg5eq, hg5len, hg5hex⟩ := consumeHex_some 12 _ cs5 h12
  refine ⟨g1, g2, g3, g4, g5, d1, d2, d3, d4, ?_, hg1len, hg2len, hg3len, hg4len,
    hg5len, ?_⟩
  · rw [hg1eq, hd1, hg2eq, hd2, hg3eq, hd3, hg4eq, hd4, hg5eq, hnil]
    simp [List.append_assoc]
  · intro c hc
    simp only [List.mem_append] at hc
    rcases hc with (((hc | hc) | hc) | hc) | hc
    · exact hg1hex c hc
    · exact hg2hex c hc
    · exact hg3hex c hc
    · exact hg4hex c hc
    · exact hg5hex c hc

theorem is_uuid_complete (s : String) (h : uuidSpecForm s) : is_uuid s = true := by
  obtain ⟨g1, g2, g3, g4, g5, d1, d2, d3, d4, heq, h1, h2, h3, h4, h5, hhex⟩ := h
  have hx1 : ∀ c ∈ g1, isHexChar c = true := fun c hc => hhex c (by simp [hc])
  have hx2 : ∀ c ∈ g2, isHexChar c = true := fun c hc => hhex c (by simp [hc])
  have hx3 : ∀ c ∈ g3, isHexChar c = true := fun c hc => hhex c (by simp [hc])
  have hx4 : ∀ c ∈ g4, isHexChar c = true := fun c hc => hhex c (by simp [hc])
  have hx5 : ∀ c ∈ g5, isHexChar c = true := fun c hc => hhex c (by simp [hc])
  unfold is_uuid
  rw [heq]
  simp only [List.append_assoc]
  rw [consumeHex_append 8 g1 _ h1 hx1]
  simp only [Option.map_some', Option.some_bind]
  rw [consumeOptDash_append d1 _ (head_app_ne_dash g2 _ (by omega) hx2)]
  rw [consumeHex_append 4 g2 _ h2 hx2]
  simp only [Option.map_some', Option.some_bind]
  rw [consumeOptDash_append d2 _ (head_app_ne_dash g3 _ (by omega) hx3)]
  rw [consumeHex_append 4 g3 _ h3 hx3]
  simp only [Option.map_some', Option.some_bind]
  rw [consumeOptDash_append d3 _ (head_app_ne_dash g4 _ (by omega) hx4)]
  rw [consumeHex_append 4 g4 _ h4 hx4]
  simp only [Option.map_some', Option.some_bind]
  rw [show dashIf d4 ++ g5 = dashIf d4 ++ (g5 ++ []) by simp]
  rw [consumeOptDash_append d4 _ (head_app_ne_dash g5 _ (by omega) hx5)]
  rw [consumeHex_append 12 g5 [] h5 hx5]
  rfl

theorem uuidSpecForm_pyUUID (s : String) (h : uuidSpecForm s) :
    ∃ bytes, pyUUID s = some bytes := by
  obtain ⟨g1, g2, g3, g4, g5, d1, d2, d3, d4, heq, h1, h2, h3, h4, h5, hhex⟩ := h
  have hfil : ∀ g : List Char, (∀ c ∈ g, isHexChar c = true) →
      g.filter (fun c => !(c = '-')) = g := by
    intro g hg
    apply List.filter_eq_self.mpr
    intro c hc
    simp [isHexChar_ne_dash c (hg c hc)]
  have hx1 : ∀ c ∈ g1, isHexChar c = true := fun c hc => hhex c (by simp [hc])
  have hx2 : ∀ c ∈ g2, isHexChar c = true := fun c hc => hhex c (by simp [hc])
  have hx3 : ∀ c ∈ g3, isHexChar c = true := fun c hc => hhex c (by simp [hc])
  have hx4 : ∀ c ∈ g4, isHexChar c = true := fun c hc => hhex c (by simp [hc])
  have hx5 : ∀ c ∈ g5, isHexChar c = true := fun c hc => hhex c (by simp [hc])
  have hdash : ∀ d : Bool, (dashIf d).filter (fun c => !(c = '-')) = [] := by
    intro d
    cases d <;> simp [dashIf]
  have hds : s.data.filter (fun c => !(c = '-')) = g1 ++ g2 ++ g3 ++ g4 ++ g5 := by
    rw [heq]
    simp only [List.filter_append, hdash, hfil g1 hx1, hfil g2 hx2, hfil g3 hx3,
      hfil g4 hx4, hfil g5 hx5]
    simp [List.append_assoc]
  refine ⟨(chunkPairs (g1 ++ g2 ++ g3 ++ g4 ++ g5)).map
    (fun p => hexVal p.1 * 16 + hexVal p.2), ?_⟩
  unfold pyUUID
  rw [show (s.data.filter (fun c => !(c = '-'))) = g1 ++ g2 ++ g3 ++ g4 ++ g5 from hds]
  rw [if_pos]
  constructor
  · simp only [List.length_append]
    omega
  · rw [List.all_eq_true]
    intro c hc
    have hmem : c ∈ g1 ++ g2 ++ g3 ++ g4 ++ g5 := hc
    have : isHexChar c = true := by
      simp only [List.mem_append] at hmem
      rcases hmem with (((hm | hm) | hm) | hm) | hm
      · exact hx1 c hm
      · exact hx2 c hm
      · exact hx3 c hm
      · exact hx4 c hm
      · exact hx5 c hm
    simp [isHexDigitChar, this]

/-- Counterexample to C8 as stated: the regex makes each of the four
separating hyphens independently optional, so a partially hyphenated
string is accepted although it is neither fully hyphenated nor
hyphen-free. -/
theorem is_uuid_counterexample :
    is_uuid "00000000-000000000000000000000000" = true ∧
    ¬ uuidSpecFormStrict "00000000-000000000000000000000000" := by
  constructor
  · decide
  · rintro ⟨g1, g2, g3, g4, g5, hcase, h1, h2, h3, h4, h5, hhex⟩
    have hlen : ("00000000-000000000000000000000000" : String).data.length = 33 := by
      decide
    rcases hcase with heq | heq
    · have := congrArg List.length heq
      simp only [List.length_append, List.length_cons, List.length_nil] at this
      omega
    · have hdashmem : '-' ∈ ("00000000-000000000000000000000000" : String).data := by
        decide
      rw [heq] at hdashmem
      exact absurd (hhex '-' hdashmem) (by decide)

/-- C8 amended: for UUID-typed fields the syntactic fast-path check
accepts a string if and only if it is 32 lowercase hex digits in groups
8-4-4-4-12 with each of the four separating hyphens independently
optional (in particular every fully hyphenated and every hyphen-free
canonical form, but also mixed hyphenations); an accepted token is
returned parsed into a structured UUID without any enumeration call. -/
theorem is_uuid_amended (s : String) :
    (is_uuid s = true ↔ uuidSpecForm s) ∧
    (is_uuid s = true →
      ∃ bytes, pyUUID s = some bytes ∧
        ∀ (nm : String) (func : Unit → List String),
          _disambiguate_uuid nm (UUID_EXPANSION.str s) func =
            (Except.ok (some bytes), 0)) := by
  refine ⟨⟨is_uuid_sound s, is_uuid_complete s⟩, ?_⟩
  intro h
  obtain ⟨bytes, hb⟩ := uuidSpecForm_pyUUID s (is_uuid_sound s h)
  refine ⟨bytes, hb, ?_⟩
  intro nm func
  have hfast : _disambiguate nm s is_uuid func = (Except.ok s, 0) := by
    simp [_disambiguate, h]
  have hred : _disambiguate_uuid nm (UUID_EXPANSION.str s) func =
      (match _disambiguate nm s is_uuid func with
        | (Except.ok v, k) => (Except.ok (pyUUID v), k)
        | (Except.error e, k) => (Except.error e, k)) := rfl
  rw [hred, hfast]
  show (Except.ok (pyUUID s), (0 : Nat)) = _
  rw [hb]

/-- Witness for the amended C8 at the fully hyphenated zero UUID. -/
theorem is_uuid_amended_witness :
    uuidSpecForm "00000000-0000-0000-0000-000000000000" ∧
    _disambiguate_uuid "task"
      (UUID_EXPANSION.str "00000000-0000-0000-0000-000000000000") (fun _ => []) =
      (Except.ok (pyUUID "00000000-0000-0000-0000-000000000000"), 0) := by
  refine ⟨(is_uuid_amended "00000000-0000-0000-0000-000000000000").1.mp (by decide), ?_⟩
  obtain ⟨bytes, hb, hall⟩ :=
    (is_uuid_amended "00000000-0000-0000-0000-000000000000").2 (by decide)
  rw [hb]
  exact hall "task" (fun _ => [])

end OnefuzzApi
